import Mathlib

/-!
Shallow embedding of the Activity Identity Resolution Engine of
`orchestrator/app/services/activity_processing_service.py`
(class `ActivityProcessingService`), together with theorems checking the
specification's claims against it.

Conventions of the embedding:
* Python dict payloads are association lists with unique keys in insertion
  order; the payload values relevant to this service are strings and `None`.
* Embedding vectors are lists of rationals; FAISS `IndexFlatL2.search`
  returns squared Euclidean distances in ascending order (ties by lower row
  index), which is modelled by a stable insertion sort.
* The external embedding model (`SentenceTransformer.encode`) is an opaque
  parameter `embed : String → Except PyErr (List ℚ)`.
* `try/except` blocks are modelled by returning the (possibly mutated)
  state next to an `Except` value, since Python exception handlers observe
  the mutations the body performed before raising.
* `uuid.uuid4().hex[:16]` draws are modelled by a per-call supply
  `hexes : Nat → String`, indexed by the order of the `uuid4()` calls made
  during one `process_activity` call.
* Disk writes (`faiss.write_index`, `_save_activities` via pickle) are
  modelled by a `Disk` component of the state; whether each write succeeds
  in a given call is an environment flag of that call.
-/

deriving instance DecidableEq for Except

/-- Python runtime errors that the modelled code can raise. -/
inductive PyErr where
  | attributeError
  | keyError
  | indexError
  | embeddingError
  | ioError
deriving DecidableEq

/-- A Python payload value as used by the activity dicts: a string or `None`. -/
inductive PyVal where
  | s (v : String)
  | none
deriving DecidableEq

/-- A Python dict with string keys, as an insertion-ordered association list
with unique keys. -/
abbrev PyDict := List (String × PyVal)

/-- `d[k]`-style first lookup in an association list. -/
def assocLookup {α : Type} (m : List (String × α)) (k : String) : Option α :=
  match m with
  | [] => Option.none
  | (k', v) :: rest => if k' = k then some v else assocLookup rest k

/-- Python `d.get(k)`: `None` when the key is absent. -/
def dictGet (d : PyDict) (k : String) : PyVal :=
  match assocLookup d k with
  | some v => v
  | Option.none => PyVal.none

/-- Python `d.get(k, default)`. -/
def dictGetD (d : PyDict) (k : String) (default : PyVal) : PyVal :=
  match assocLookup d k with
  | some v => v
  | Option.none => default

/-- Python `d[k] = v` (also `{**d, k: v}`): overwrite in place when the key
exists, else append. -/
def assocSet {α : Type} (m : List (String × α)) (k : String) (v : α) :
    List (String × α) :=
  match m with
  | [] => [(k, v)]
  | (k', v') :: rest =>
    if k' = k then (k, v) :: rest else (k', v') :: assocSet rest k v

/-!
### Character-level primitives

`_normalize_text` delegates to `str.lower`, `unicodedata.normalize('NFKD')`,
`unicodedata.combining`, the regex class `[^\w\s\-\.,]`, `str.split`,
`' '.join` and `str.strip`.  These are modelled from the Unicode character
data and Python semantics, exactly on ASCII and on the table of non-ASCII
characters that appear in this development; other characters are treated as
plain letters with no decomposition, no case mapping and no combining class.
-/

/-- Unicode simple lowercase mapping (`str.lower`), character by character:
exact on ASCII; `'É' → 'é'`; characters without a lowercase mapping (such as
U+3385 SQUARE KB) map to themselves. -/
def pyLowerChar (c : Char) : Char :=
  if 'A' ≤ c ∧ c ≤ 'Z' then Char.ofNat (c.toNat + 32)
  else if c = 'É' then 'é'
  else c

/-- Full compatibility decomposition (NFKD) of one character: ASCII is
already decomposed; `'é'`/`'É'` decompose into the base letter followed by
U+0301 COMBINING ACUTE ACCENT; U+3385 SQUARE KB decomposes into `"KB"`. -/
def nfkdChar (c : Char) : List Char :=
  if c = 'é' then ['e', '́']
  else if c = 'É' then ['E', '́']
  else if c = '㎅' then ['K', 'B']
  else [c]

/-- `unicodedata.combining(c) != 0`: true exactly for combining marks; the
block U+0300–U+036F covers the marks reachable in this development. -/
def isCombining (c : Char) : Bool :=
  0x300 ≤ c.toNat ∧ c.toNat ≤ 0x36F

/-- Python regex `\w` (word character): letters, digits and underscore. -/
def isWordChar (c : Char) : Bool :=
  c.isAlpha || c.isDigit || c = '_'

/-- Python whitespace as recognised by `str.split()` / `str.strip()`
(ASCII fragment). -/
def pyIsSpace (c : Char) : Bool :=
  c = ' ' || c = '\t' || c = '\n' || c = '\r' || c = '\x0b' || c = '\x0c'

/-- The character class kept by `re.sub(r'[^\w\s\-\.,]', '', text)`. -/
def keepChar (c : Char) : Bool :=
  isWordChar c || pyIsSpace c || c = '-' || c = '.' || c = ','

/-- Python `text.split()`: split on every whitespace character and drop the
empty pieces. -/
def pySplitWs (l : List Char) : List (List Char) :=
  (l.splitOnP (fun c => pyIsSpace c)).filter (fun w => w ≠ [])

/-- Python `text.strip()`: drop whitespace from both ends. -/
def pyStrip (l : List Char) : List Char :=
  ((l.dropWhile pyIsSpace).reverse.dropWhile pyIsSpace).reverse

/-- `_normalize_text` on the underlying character list: lower-case, NFKD
decompose, drop combining marks, drop characters outside
`\w\s\-\.,`, re-join the whitespace-split words with single spaces, strip. -/
def normalizeTextL (l : List Char) : List Char :=
  if l = [] then []
  else
    let t1 := l.map pyLowerChar
    let t2 := t1.flatMap nfkdChar
    let t3 := t2.filter (fun c => !(isCombining c))
    let t4 := t3.filter keepChar
    let t5 := List.intercalate [' '] (pySplitWs t4)
    pyStrip t5

/-- `ActivityProcessingService._normalize_text`. -/
def normalize_text (s : String) : String :=
  ⟨normalizeTextL s.data⟩

/-- Python `str.lower` on a whole string. -/
def pyLowerStr (s : String) : String :=
  ⟨s.data.map pyLowerChar⟩

/-- `ActivityProcessingService._create_activity_signature`: normalized
name and location always, normalized category only when non-empty. -/
def create_activity_signature (name location category : String) : String :=
  let nn := normalize_text name
  let nl := normalize_text location
  let nc := normalize_text category
  let sig := nn ++ " | " ++ nl
  if nc ≠ "" then sig ++ " | " ++ nc else sig

/-- `.lower()` applied to a payload value: raises `AttributeError` on
`None` (which has no `lower` method). -/
def pyValLower : PyVal → Except PyErr String
  | PyVal.s v => Except.ok (pyLowerStr v)
  | PyVal.none => Except.error PyErr.attributeError

/-!
### Service state and FAISS model
-/

/-- `ActivityRecord` dataclass.  Note: it has exactly these five fields; in
particular there is no `last_used` field (see `cleanup_old_activities`). -/
structure ActivityRecord where
  activity_id : String
  name : String
  location : String
  category : String
  embedding : List ℚ
deriving DecidableEq

/-- The two on-disk artifacts sharing the base path: the FAISS index file
and the pickled records file. -/
structure Disk where
  indexFile : List (List ℚ)
  recordsFile : List (String × ActivityRecord)
deriving DecidableEq

/-- In-memory state of `ActivityProcessingService`: the FAISS index rows,
the parallel `index_to_id` list, the `activities` dict (insertion-ordered),
and the disk artifacts. -/
structure ServiceState where
  index : List (List ℚ)
  index_to_id : List String
  activities : List (String × ActivityRecord)
  disk : Disk
deriving DecidableEq

/-- Configuration of the service: the external embedding model and the
similarity threshold (constructor default 0.85). -/
structure Config where
  embed : String → Except PyErr (List ℚ)
  threshold : ℚ

/-- Per-call environment: the successive `uuid4().hex[:16]` draws of this
call, and whether each kind of disk write succeeds during this call. -/
structure PerCall where
  hexes : Nat → String
  indexSaveOk : Bool
  recordsSaveOk : Bool

/-- Squared Euclidean distance, the metric of FAISS `IndexFlatL2`
(vectors have fixed dimension 384 in the deployed service). -/
def sqDist (u v : List ℚ) : ℚ :=
  ((u.zip v).map (fun p => (p.1 - p.2) ^ 2)).sum

/-- Insert a `(row, distance)` pair coming before the given pairs into a
list sorted by ascending distance: it goes in front of every pair of equal
or larger distance, so ties keep the earlier row first. -/
def insertByDist (p : Nat × ℚ) : List (Nat × ℚ) → List (Nat × ℚ)
  | [] => [p]
  | q :: qs => if p.2 ≤ q.2 then p :: q :: qs else q :: insertByDist p qs

/-- Stable sort of `(row, distance)` pairs by ascending distance: ties keep
the lower row index first, as FAISS flat-index search does. -/
def sortByDist : List (Nat × ℚ) → List (Nat × ℚ)
  | [] => []
  | p :: ps => insertByDist p (sortByDist ps)

/-- FAISS `IndexFlatL2.search(q, k)`: the `k` nearest rows by squared L2
distance, ascending (fewer than `k` when the index is smaller; the `-1`
padding slots FAISS emits in that case are skipped by the caller). -/
def faissSearch (index : List (List ℚ)) (q : List ℚ) (k : Nat) :
    List (Nat × ℚ) :=
  (sortByDist (index.enum.map (fun p => (p.1, sqDist q p.2)))).take k

/-- Map the kept `(row, similarity)` pairs through `index_to_id`, raising
`IndexError` when a row has no entry (the `except IndexError ... raise`
block of `_search_similar_activities`). -/
def lookupRows (index_to_id : List String) :
    List (Nat × ℚ) → Except PyErr (List (String × ℚ))
  | [] => Except.ok []
  | (i, s) :: rest =>
    match index_to_id.get? i with
    | some id =>
      match lookupRows index_to_id rest with
      | Except.ok l => Except.ok ((id, s) :: l)
      | Except.error e => Except.error e
    | Option.none => Except.error PyErr.indexError

/-- `_search_similar_activities`: `None` when the index is empty; otherwise
the top-5 rows converted to similarities by `1 - distance / 2`, filtered by
`similarity >= threshold`, mapped through `index_to_id`. -/
def searchSimilar (cfg : Config) (st : ServiceState) (q : List ℚ) :
    Except PyErr (Option (List (String × ℚ))) :=
  if st.index.length > 0 then
    let sims := (faissSearch st.index q 5).map (fun p => (p.1, 1 - p.2 / 2))
    let kept := sims.filter (fun p => cfg.threshold ≤ p.2)
    match lookupRows st.index_to_id kept with
    | Except.ok l => Except.ok (some l)
    | Except.error e => Except.error e
  else Except.ok Option.none

/-- `_rebuild_index`: rebuild the in-memory index and `index_to_id` from
the `activities` dict in its iteration (insertion) order, then write the
index file.  The records file is not written here.  The write may fail, in
which case the exception propagates while the in-memory rebuild remains. -/
def rebuild_index (pc : PerCall) (st : ServiceState) :
    Except PyErr Unit × ServiceState :=
  let st1 : ServiceState :=
    { st with
      index := st.activities.map (fun p => p.2.embedding),
      index_to_id := st.activities.map (fun p => p.1) }
  if pc.indexSaveOk then
    (Except.ok (), { st1 with disk := { st1.disk with indexFile := st1.index } })
  else
    (Except.error PyErr.ioError, st1)

/-- The fixed-shape dict returned on the match path of `process_activity`:
only these eight keys, `description` defaulted to the empty string, the
other fields read with `dict.get` (so `None` when absent). -/
def matchResultDict (a : PyDict) (id : String) : PyDict :=
  [("name", dictGet a "name"),
   ("description", dictGetD a "description" (PyVal.s "")),
   ("location", dictGet a "location"),
   ("startTime", dictGet a "startTime"),
   ("endTime", dictGet a "endTime"),
   ("participants", dictGet a "participants"),
   ("category", dictGet a "category"),
   ("activityId", PyVal.s id)]

/-- `_store_activity` followed by the create-path return value: add the
embedding to the index, store the record, append to `index_to_id`, then
write the index file and the records file (either write may fail and the
exception propagates past the in-memory mutations).  The `Nat` is the
number of `uuid4()` calls consumed so far in the enclosing call. -/
def createPath (pc : PerCall) (st : ServiceState) (a : PyDict)
    (name location category : String) (embedding : List ℚ) :
    Except PyErr PyDict × ServiceState × Nat :=
  let activity_id := "activity_" ++ pc.hexes 0
  let record : ActivityRecord :=
    ⟨activity_id, name, location, category, embedding⟩
  let st1 : ServiceState :=
    { st with
      index := st.index ++ [embedding],
      activities := assocSet st.activities activity_id record,
      index_to_id := st.index_to_id ++ [activity_id] }
  if pc.indexSaveOk then
    let st2 := { st1 with disk := { st1.disk with indexFile := st1.index } }
    if pc.recordsSaveOk then
      let st3 := { st2 with disk := { st2.disk with recordsFile := st2.activities } }
      (Except.ok (assocSet a "activityId" (PyVal.s activity_id)), st3, 1)
    else
      (Except.error PyErr.ioError, st2, 1)
  else
    (Except.error PyErr.ioError, st1, 1)

/-- The `try` body of `process_activity`: lower-case the three fields,
build the signature from the lower-cased raw values, embed, search, and
take the match path or the create path.  Returns the result or the raised
error, the state as mutated so far, and the number of `uuid4()` calls
consumed. -/
def processBody (cfg : Config) (pc : PerCall) (st : ServiceState)
    (a : PyDict) : Except PyErr PyDict × ServiceState × Nat :=
  match pyValLower (dictGetD a "name" (PyVal.s "")) with
  | Except.error e => (Except.error e, st, 0)
  | Except.ok name =>
  match pyValLower (dictGetD a "location" (PyVal.s "")) with
  | Except.error e => (Except.error e, st, 0)
  | Except.ok location =>
  match pyValLower (dictGetD a "category" (PyVal.s "")) with
  | Except.error e => (Except.error e, st, 0)
  | Except.ok category =>
  let signature := name ++ " | " ++ location ++ " | " ++ category
  match cfg.embed signature with
  | Except.error e => (Except.error e, st, 0)
  | Except.ok embedding =>
  match searchSimilar cfg st embedding with
  | Except.error e => (Except.error e, st, 0)
  | Except.ok osim =>
  match osim with
  | some ((similar_id, similarity) :: _) =>
    match assocLookup st.activities similar_id with
    | Option.none => (Except.error PyErr.keyError, st, 0)
    | some _ =>
      if cfg.threshold ≤ similarity then
        let updated : ActivityRecord :=
          ⟨similar_id, name, location, category, embedding⟩
        let st1 := { st with activities := assocSet st.activities similar_id updated }
        match rebuild_index pc st1 with
        | (Except.ok _, st2) =>
          (Except.ok (matchResultDict a similar_id), st2, 0)
        | (Except.error e, st2) => (Except.error e, st2, 0)
      else
        createPath pc st a name location category embedding
  | _ => createPath pc st a name location category embedding

/-- `process_activity`: the `try` body with the `except` clause that turns
any raised error into a fallback `activityId` drawn from the next
`uuid4()` call, leaving whatever state the body reached. -/
def process_activity (cfg : Config) (pc : PerCall) (st : ServiceState)
    (a : PyDict) : PyDict × ServiceState :=
  match processBody cfg pc st a with
  | (Except.ok d, st', _) => (d, st')
  | (Except.error _, st', used) =>
    (assocSet a "activityId" (PyVal.s ("activity_" ++ pc.hexes used)), st')

/-- `get_activity_stats` (total count, category histogram, threshold); only
the total is needed here. -/
def get_activity_stats_total (st : ServiceState) : Nat :=
  st.activities.length

/-- `cleanup_old_activities(days_old)`.  The loop evaluates
`activity.last_used` on each stored record, but `ActivityRecord` has no
`last_used` field, so the first iteration raises `AttributeError` (no state
mutated yet).  With an empty store the loop body never runs: the fresh
empty `IndexFlatIP` replaces the index, `activities` is replaced by the
empty surviving set, `index_to_id` is left untouched, both artifacts are
written, and `deleted_count` is computed from the already-replaced
`activities` as `len(self.activities) - len(new_activities)`. -/
def cleanup_old_activities (pc : PerCall) (st : ServiceState)
    (now days_old : ℤ) : Except PyErr (ServiceState × Nat) × ServiceState :=
  let _cutoff := now - days_old
  match st.activities with
  | _ :: _ => (Except.error PyErr.attributeError, st)
  | [] =>
    let newIndex : List (List ℚ) := []
    let newActivities : List (String × ActivityRecord) := []
    let st1 := { st with index := newIndex, activities := newActivities }
    if pc.indexSaveOk then
      let st2 := { st1 with disk := { st1.disk with indexFile := st1.index } }
      if pc.recordsSaveOk then
        let st3 := { st2 with disk := { st2.disk with recordsFile := st2.activities } }
        let deleted_count := st3.activities.length - newActivities.length
        (Except.ok (st3, deleted_count), st3)
      else
        (Except.error PyErr.ioError, st2)
    else
      (Except.error PyErr.ioError, st1)

/-- A span of a trip plan: its activity dicts plus its other fields, which
`process_trip_plan` leaves untouched. -/
structure Span where
  activities : List PyDict
  extra : PyDict
deriving DecidableEq

/-- A trip plan: its spans plus its other top-level fields. -/
structure TripPlan where
  spans : List Span
  extra : PyDict
deriving DecidableEq

/-- The inner loop of `process_trip_plan` over one span's activities,
threading the service state and the global activity ordinal that selects
each call's environment.  `process_activity` is total, so the surrounding
`try/except (raise)` never fires. -/
def processActivities (cfg : Config) (pcs : Nat → PerCall) :
    Nat → ServiceState → List PyDict → List PyDict × ServiceState × Nat
  | n, st, [] => ([], st, n)
  | n, st, a :: rest =>
    let (d, st1) := process_activity cfg (pcs n) st a
    let (ds, st2, n2) := processActivities cfg pcs (n + 1) st1 rest
    (d :: ds, st2, n2)

/-- The outer loop of `process_trip_plan` over the spans. -/
def processSpans (cfg : Config) (pcs : Nat → PerCall) :
    Nat → ServiceState → List Span → List Span × ServiceState × Nat
  | n, st, [] => ([], st, n)
  | n, st, sp :: rest =>
    let (ds, st1, n1) := processActivities cfg pcs n st sp.activities
    let (sps, st2, n2) := processSpans cfg pcs n1 st1 rest
    ({ sp with activities := ds } :: sps, st2, n2)

/-- `process_trip_plan`: process every activity of every span in order,
replacing each span's activity list with the processed dicts; all other
plan and span fields pass through. -/
def process_trip_plan (cfg : Config) (pcs : Nat → PerCall)
    (st : ServiceState) (plan : TripPlan) : TripPlan × ServiceState :=
  let (sps, st', _) := processSpans cfg pcs 0 st plan.spans
  ({ plan with spans := sps }, st')

/-- The consistency invariant of the spec: index size, `index_to_id` length
and record count agree. -/
def SizeInv (st : ServiceState) : Prop :=
  st.index.length = st.index_to_id.length ∧
    st.index_to_id.length = st.activities.length

/-!
### Derived predicates and concrete fixtures
-/

/-- A lowercase hexadecimal digit, as produced by `uuid.uuid4().hex`. -/
def isLowerHexDigit (c : Char) : Bool :=
  c.isDigit || ('a' ≤ c ∧ c ≤ 'f')

/-- The id format of `_generate_activity_id` and of the fallback ids:
`activity_` followed by 16 lowercase hex characters. -/
def wfActivityId (id : String) : Bool :=
  id.data.take 9 = "activity_".data &&
    (id.data.drop 9).length = 16 &&
    (id.data.drop 9).all isLowerHexDigit

/-- The looked-up `activityId` entry is a string of the well-formed id
format. -/
def wfActivityIdOpt : Option PyVal → Bool
  | some (PyVal.s id) => wfActivityId id
  | _ => false

/-- Every activity of every span of the plan carries an `activityId` key. -/
def planAllAnnotated (plan : TripPlan) : Bool :=
  plan.spans.all (fun sp =>
    sp.activities.all (fun d => (assocLookup d "activityId").isSome))

/-- All characters of the string are ASCII. -/
def allAscii (s : String) : Bool :=
  s.data.all (fun c => c.toNat < 128)

/-- Fixture: an embedding model that sends every string to the vector `[1]`. -/
def embedOne : String → Except PyErr (List ℚ) := fun _ => Except.ok [1]

/-- Fixture: the service with the constant embedder and the default 0.85
threshold. -/
def cfgOne : Config := ⟨embedOne, 85/100⟩

/-- Fixture: an embedding model that always fails. -/
def cfgFail : Config := ⟨fun _ => Except.error PyErr.embeddingError, 85/100⟩

/-- Fixture: an embedding model that answers `[1]` on the lower-cased raw
signature of `actCafe` and `[2]` elsewhere — in particular `[2]` on the
Normalizer signature of `actCafe`. -/
def cfgRawSig : Config :=
  ⟨fun s => if s = "a  b! | x | c" then Except.ok [1] else Except.ok [2], 85/100⟩

/-- Fixture: an embedding model that fails on the lower-cased raw signature
of `actCafe` and answers `[2]` elsewhere; it agrees with `cfgRawSig` at the
Normalizer signature of `actCafe` and differs only at the raw one. -/
def cfgNormSig : Config :=
  ⟨fun s => if s = "a  b! | x | c" then Except.error PyErr.embeddingError
            else Except.ok [2], 85/100⟩

/-- Lexicographic order on character lists, as Python compares strings. -/
def lexLt : List Char → List Char → Bool
  | [], [] => false
  | [], _ :: _ => true
  | _ :: _, [] => false
  | a :: as, b :: bs => if a < b then true else if a = b then lexLt as bs else false

/-- Fixture: an environment where every disk write succeeds and every
`uuid4().hex[:16]` draw is `0123456789abcdef`. -/
def pcOk : PerCall := ⟨fun _ => "0123456789abcdef", true, true⟩

/-- Fixture: a stored record. -/
def recOld : ActivityRecord :=
  ⟨"activity_0000000000000000", "old name", "old loc", "old cat", [1]⟩

/-- Fixture: a consistent one-record state whose disk matches memory. -/
def stOne : ServiceState :=
  ⟨[[1]], ["activity_0000000000000000"], [("activity_0000000000000000", recOld)],
   ⟨[[1]], [("activity_0000000000000000", recOld)]⟩⟩

/-- Fixture: an activity dict carrying an extra field `note`. -/
def actNew : PyDict :=
  [("name", PyVal.s "New Name"), ("location", PyVal.s "Old Loc"),
   ("category", PyVal.s "Old Cat"), ("note", PyVal.s "keep me")]

/-- Fixture: an activity whose raw name contains doubled spaces and a
character the Normalizer would remove. -/
def actCafe : PyDict :=
  [("name", PyVal.s "A  B!"), ("location", PyVal.s "X"),
   ("category", PyVal.s "C")]

/-- Fixture: record with the lexicographically largest id, stored first. -/
def recZ : ActivityRecord :=
  ⟨"activity_zzzzzzzzzzzzzzzz", "zed", "zl", "zc", [1]⟩

/-- Fixture: record with the lexicographically smallest id, stored second. -/
def recA : ActivityRecord :=
  ⟨"activity_aaaaaaaaaaaaaaaa", "ay", "al", "ac", [1]⟩

/-- Fixture: a consistent two-record state whose rows tie in distance to
the query `[1]`; insertion order is `recZ` then `recA`. -/
def stTie : ServiceState :=
  ⟨[[1], [1]], ["activity_zzzzzzzzzzzzzzzz", "activity_aaaaaaaaaaaaaaaa"],
   [("activity_zzzzzzzzzzzzzzzz", recZ), ("activity_aaaaaaaaaaaaaaaa", recA)],
   ⟨[[1], [1]],
    [("activity_zzzzzzzzzzzzzzzz", recZ), ("activity_aaaaaaaaaaaaaaaa", recA)]⟩⟩

/-- Fixture: the empty service state. -/
def stEmpty : ServiceState := ⟨[], [], [], ⟨[], []⟩⟩

/-- Fixture: three stored records, standing for records last used 40, 10
and 1 days ago. -/
def stThree : ServiceState :=
  ⟨[[1], [2], [3]],
   ["activity_4444444444444444", "activity_1111111111111111",
    "activity_2222222222222222"],
   [("activity_4444444444444444",
     ⟨"activity_4444444444444444", "forty days", "l40", "c", [1]⟩),
    ("activity_1111111111111111",
     ⟨"activity_1111111111111111", "ten days", "l10", "c", [2]⟩),
    ("activity_2222222222222222",
     ⟨"activity_2222222222222222", "one day", "l1", "c", [3]⟩)],
   ⟨[[1], [2], [3]],
    [("activity_4444444444444444",
      ⟨"activity_4444444444444444", "forty days", "l40", "c", [1]⟩),
     ("activity_1111111111111111",
      ⟨"activity_1111111111111111", "ten days", "l10", "c", [2]⟩),
     ("activity_2222222222222222",
      ⟨"activity_2222222222222222", "one day", "l1", "c", [3]⟩)]⟩⟩

/-- Fixture: a two-span trip plan; the second activity of the first span
has a `None` name, every other activity is plain. -/
def planTwoSpans : TripPlan :=
  ⟨[⟨[[("name", PyVal.s "First"), ("location", PyVal.s "L1")],
      [("name", PyVal.none), ("location", PyVal.s "L2")]],
     [("day", PyVal.s "1")]⟩,
    ⟨[[("name", PyVal.s "Third"), ("location", PyVal.s "L3")]],
     [("day", PyVal.s "2")]⟩],
   [("destination", PyVal.s "Tokyo")]⟩

/-!
### Theorems

Batteries marks the rational operations irreducible, which blocks
evaluation inside `decide`; restore default reducibility for them.
-/

attribute [local semireducible] Rat.add Rat.sub Rat.mul Rat.inv

/-- Looking up the key just written by `assocSet` yields the new value. -/
theorem assocLookup_assocSet_self {α : Type} (m : List (String × α))
    (k : String) (v : α) : assocLookup (assocSet m k v) k = some v := by
  induction m with
  | nil => simp [assocSet, assocLookup]
  | cons p rest ih =>
    obtain ⟨k', v'⟩ := p
    by_cases h : k' = k
    · simp [assocSet, assocLookup, h]
    · simp [assocSet, assocLookup, h, ih]

/-- Overwriting an existing key keeps the map's length. -/
theorem length_assocSet_of_isSome {α : Type} (m : List (String × α))
    (k : String) (v : α) (h : (assocLookup m k).isSome) :
    (assocSet m k v).length = m.length := by
  induction m with
  | nil => simp [assocLookup] at h
  | cons p rest ih =>
    obtain ⟨k', v'⟩ := p
    by_cases hk : k' = k
    · simp [assocSet, hk]
    · simp only [assocLookup, hk, if_false] at h
      simp [assocSet, hk, ih h]

/-- Writing a fresh key appends one entry. -/
theorem length_assocSet_of_none {α : Type} (m : List (String × α))
    (k : String) (v : α) (h : assocLookup m k = Option.none) :
    (assocSet m k v).length = m.length + 1 := by
  induction m with
  | nil => simp [assocSet]
  | cons p rest ih =>
    obtain ⟨k', v'⟩ := p
    by_cases hk : k' = k
    · simp [assocLookup, hk] at h
    · simp only [assocLookup, hk, if_false] at h
      simp [assocSet, hk, ih h]

/-- C2: the claim says `cleanup_old_activities(30)` applied to records last
used 40, 10 and 1 days ago removes exactly one record and returns 1.  The
code instead raises `AttributeError` on the first record, because
`ActivityRecord` has no `last_used` field, and leaves the state untouched;
no count is ever returned for a non-empty store. -/
theorem cleanup_raises_attributeError_on_three_records :
    (cleanup_old_activities pcOk stThree 0 30).1 =
      Except.error PyErr.attributeError ∧
    (cleanup_old_activities pcOk stThree 0 30).2 = stThree ∧
    stThree.activities.length = 3 := by
  decide

/-- Companion fact to `cleanup_old_activities`: on the empty store the
loop body never runs, cleanup completes, `index_to_id` is left as it was,
and the returned count is `len(self.activities) - len(new_activities)`
computed after `self.activities` was already replaced, hence 0. -/
theorem cleanup_completes_only_on_empty_store :
    (cleanup_old_activities pcOk stEmpty 0 30).1 =
      Except.ok (⟨[], [], [], ⟨[], []⟩⟩, 0) := by
  decide

/-- C3: a match-path resolution returns a success result carrying the
matched id, and the in-memory record map holds the overwritten record, yet
the records artifact on disk still holds the old record: `_rebuild_index`
writes only the index file and the match path never calls
`_save_activities`.  Every disk write was allowed to succeed here, so no
write failure is involved. -/
theorem match_path_returns_success_without_records_save :
    (assocLookup (process_activity cfgOne pcOk stOne actNew).1 "activityId" =
      some (PyVal.s "activity_0000000000000000")) ∧
    (assocLookup (process_activity cfgOne pcOk stOne actNew).2.activities
      "activity_0000000000000000" =
      some ⟨"activity_0000000000000000", "new name", "old loc", "old cat", [1]⟩) ∧
    ((process_activity cfgOne pcOk stOne actNew).2.disk.recordsFile =
      [("activity_0000000000000000", recOld)]) ∧
    recOld.name = "old name" := by
  decide

/-- Counterexample to C4: two stored records tie at similarity 1 for the
query; the code returns the id at the earlier index row,
`activity_zzzzzzzzzzzzzzzz`, although `activity_aaaaaaaaaaaaaaaa` is
lexicographically lower, so ties are not broken by lowest id. -/
theorem tie_not_broken_by_lowest_id :
    searchSimilar cfgOne stTie [1] =
      Except.ok (some [("activity_zzzzzzzzzzzzzzzz", 1),
                       ("activity_aaaaaaaaaaaaaaaa", 1)]) ∧
    assocLookup (process_activity cfgOne pcOk stTie actNew).1 "activityId" =
      some (PyVal.s "activity_zzzzzzzzzzzzzzzz") ∧
    lexLt ("activity_aaaaaaaaaaaaaaaa" : String).data
      ("activity_zzzzzzzzzzzzzzzz" : String).data = true := by
  decide

/-- Counterexample to C5: two embedding providers that agree on the
Normalizer signature of `actCafe` (and on the threshold) drive
`process_activity` to different results, so the string handed to the
embedder cannot be the Normalizer signature; the code embeds the
lower-cased raw signature `"a  b! | x | c"` instead, on which the two
providers differ. -/
theorem embedded_string_is_not_normalized_signature :
    create_activity_signature "A  B!" "X" "C" = "a b | x | c" ∧
    cfgRawSig.embed "a b | x | c" = cfgNormSig.embed "a b | x | c" ∧
    cfgRawSig.threshold = cfgNormSig.threshold ∧
    (process_activity cfgRawSig pcOk stEmpty actCafe).2 ≠
      (process_activity cfgNormSig pcOk stEmpty actCafe).2 := by
  decide

/-- C7: `_rebuild_index` reinserts the records in the record map's
iteration (insertion) order, not ascending by id: with `recZ` stored before
`recA` the rebuilt `index_to_id` is the unsorted `[z, a]`, though the
loader (`_init_index`) reconstructs `index_to_id` sorted ascending, so the
two orders disagree. -/
theorem rebuild_keeps_insertion_order_not_sorted :
    (rebuild_index pcOk stTie).1 = Except.ok () ∧
    (rebuild_index pcOk stTie).2.index_to_id =
      ["activity_zzzzzzzzzzzzzzzz", "activity_aaaaaaaaaaaaaaaa"] ∧
    (rebuild_index pcOk stTie).2.index_to_id ≠
      ["activity_aaaaaaaaaaaaaaaa", "activity_zzzzzzzzzzzzzzzz"] := by
  decide

/-- Counterexample to C8: on the match path the extra input field `note`
does not appear in the returned dict, although the resolution succeeded
with the matched id. -/
theorem match_path_drops_extra_fields :
    assocLookup actNew "note" = some (PyVal.s "keep me") ∧
    assocLookup (process_activity cfgOne pcOk stOne actNew).1 "note" =
      Option.none ∧
    assocLookup (process_activity cfgOne pcOk stOne actNew).1 "activityId" =
      some (PyVal.s "activity_0000000000000000") := by
  decide

/-- Counterexample to C10: `_normalize_text` is not idempotent, because the
compatibility decomposition can introduce uppercase letters after the
lower-casing step: U+3385 SQUARE KB normalizes to `"KB"`, which normalizes
again to `"kb"`. -/
theorem normalize_text_not_idempotent :
    normalize_text "㎅" = "KB" ∧
    normalize_text (normalize_text "㎅") ≠ normalize_text "㎅" := by
  decide

/-- The state reached by `_rebuild_index` always satisfies the size
invariant, whether or not the index write succeeded, because both the
index and `index_to_id` are recomputed from `activities`. -/
theorem sizeInv_rebuild_index (pc : PerCall) (st : ServiceState) :
    SizeInv (rebuild_index pc st).2 := by
  unfold rebuild_index SizeInv
  split <;> simp

/-- The state reached by the create path satisfies the size invariant when
it held before and the generated id is not already a key. -/
theorem sizeInv_createPath (pc : PerCall) (st : ServiceState) (a : PyDict)
    (name location category : String) (embedding : List ℚ)
    (hfresh : assocLookup st.activities ("activity_" ++ pc.hexes 0) =
      Option.none)
    (hinv : SizeInv st) :
    SizeInv (createPath pc st a name location category embedding).2.1 := by
  obtain ⟨h1, h2⟩ := hinv
  unfold createPath
  split <;> [skip; (simp [SizeInv, length_assocSet_of_none _ _ _ hfresh]; omega)]
  split <;> simp [SizeInv, length_assocSet_of_none _ _ _ hfresh] <;> omega

/-- The state component of `process_activity` is the state reached by its
`try` body, whichever way the body ended. -/
theorem process_activity_snd (cfg : Config) (pc : PerCall)
    (st : ServiceState) (a : PyDict) :
    (process_activity cfg pc st a).2 = (processBody cfg pc st a).2.1 := by
  unfold process_activity
  rcases hpb : processBody cfg pc st a with ⟨e | d, st', n⟩ <;> simp [hpb]

/-- The `try` body of `process_activity` preserves the size invariant. -/
theorem sizeInv_processBody (cfg : Config) (pc : PerCall)
    (st : ServiceState) (a : PyDict)
    (hfresh : assocLookup st.activities ("activity_" ++ pc.hexes 0) =
      Option.none)
    (hinv : SizeInv st) :
    SizeInv (processBody cfg pc st a).2.1 := by
  unfold processBody
  dsimp only
  split
  · exact hinv
  split
  · exact hinv
  split
  · exact hinv
  split
  · exact hinv
  split
  · exact hinv
  split
  case _ similar_id similarity rest =>
    split
    · exact hinv
    split
    · split
      · rename_i st2 heq
        have h2 := congrArg Prod.snd heq
        dsimp only at h2 ⊢
        rw [← h2]
        exact sizeInv_rebuild_index _ _
      · rename_i e st2 heq
        have h2 := congrArg Prod.snd heq
        dsimp only at h2 ⊢
        rw [← h2]
        exact sizeInv_rebuild_index _ _
    · exact sizeInv_createPath pc st a _ _ _ _ hfresh hinv
  case _ =>
    exact sizeInv_createPath pc st a _ _ _ _ hfresh hinv

/-- A `cleanup_old_activities` call that returns normally leaves a state
satisfying the size invariant (it can only return normally when the store
was empty, and then all three components are empty). -/
theorem cleanup_ok_sizeInv (pc2 : PerCall) (st2 : ServiceState)
    (now days : ℤ) (st' : ServiceState) (n : Nat) (hinv2 : SizeInv st2)
    (hclean : (cleanup_old_activities pc2 st2 now days).1 =
      Except.ok (st', n)) : SizeInv st' := by
  obtain ⟨g1, g2⟩ := hinv2
  unfold cleanup_old_activities at hclean
  rcases hact : st2.activities with _ | ⟨p, rest⟩ <;> rw [hact] at hclean
  · rw [hact] at g2
    dsimp only at hclean
    split at hclean
    · split at hclean
      · simp only [Except.ok.injEq, Prod.mk.injEq] at hclean
        obtain ⟨hst, _⟩ := hclean
        subst hst
        simp only [List.length_nil] at g2
        simp [SizeInv, g2]
      · simp at hclean
    · simp at hclean
  · simp at hclean

/-- C1: after every completed mutating operation — `process_activity`
resolving via match or create (indeed after any `process_activity` call,
whatever path it took), and any `cleanup_old_activities` call that returns
— the index row count, the `index_to_id` length and the record count are
equal, provided they were equal before and the freshly drawn id is not
already a key of the store. -/
theorem size_invariant_after_operations (cfg : Config) (pc pc2 : PerCall)
    (st st2 : ServiceState) (a : PyDict) (now days : ℤ)
    (st' : ServiceState) (n : Nat)
    (hfresh : assocLookup st.activities ("activity_" ++ pc.hexes 0) =
      Option.none)
    (hinv : SizeInv st) (hinv2 : SizeInv st2)
    (hclean : (cleanup_old_activities pc2 st2 now days).1 =
      Except.ok (st', n)) :
    SizeInv (process_activity cfg pc st a).2 ∧ SizeInv st' :=
  ⟨by
    rw [process_activity_snd]
    exact sizeInv_processBody cfg pc st a hfresh hinv,
   cleanup_ok_sizeInv pc2 st2 now days st' n hinv2 hclean⟩

/-- Witness for C1 at a concrete one-record state and a concrete cleanup
of the empty store. -/
theorem size_invariant_after_operations_witness :
    SizeInv (process_activity cfgOne pcOk stOne actNew).2 ∧
      SizeInv ⟨[], [], [], ⟨[], []⟩⟩ :=
  size_invariant_after_operations cfgOne pcOk pcOk stOne stEmpty actNew 0 30
    ⟨[], [], [], ⟨[], []⟩⟩ 0 (by decide) ⟨rfl, rfl⟩ ⟨rfl, rfl⟩ (by decide)

/-- A create path that returns normally returns the input dict annotated
with the generated id. -/
theorem createPath_ok_shape (pc : PerCall) (st : ServiceState) (a : PyDict)
    (name location category : String) (embedding : List ℚ) (d : PyDict)
    (st' : ServiceState) (n : Nat)
    (h : createPath pc st a name location category embedding =
      (Except.ok d, st', n)) :
    d = assocSet a "activityId" (PyVal.s ("activity_" ++ pc.hexes 0)) := by
  unfold createPath at h
  dsimp only at h
  split at h
  · split at h
    · simp only [Prod.mk.injEq, Except.ok.injEq] at h
      exact h.1.symm
    · simp at h
  · simp at h

/-- A `try` body that returns normally returns either the annotated input
dict (create path) or the fixed-shape match dict (match path). -/
theorem processBody_ok_shape (cfg : Config) (pc : PerCall)
    (st : ServiceState) (a : PyDict) (d : PyDict) (st' : ServiceState)
    (n : Nat) (h : processBody cfg pc st a = (Except.ok d, st', n)) :
    ∃ id, d = assocSet a "activityId" (PyVal.s id) ∨ d = matchResultDict a id := by
  unfold processBody at h
  dsimp only at h
  split at h
  · simp at h
  split at h
  · simp at h
  split at h
  · simp at h
  split at h
  · simp at h
  split at h
  · simp at h
  split at h
  case _ =>
    split at h
    · simp at h
    split at h
    · split at h
      · simp only [Prod.mk.injEq, Except.ok.injEq] at h
        exact ⟨_, Or.inr h.1.symm⟩
      · simp at h
    · exact ⟨"activity_" ++ pc.hexes 0, Or.inl (createPath_ok_shape _ _ _ _ _ _ _ _ _ _ h)⟩
  case _ =>
    exact ⟨"activity_" ++ pc.hexes 0, Or.inl (createPath_ok_shape _ _ _ _ _ _ _ _ _ _ h)⟩

/-- The dict returned by `process_activity` is either the annotated input
dict or the fixed-shape match dict. -/
theorem process_activity_output_cases (cfg : Config) (pc : PerCall)
    (st : ServiceState) (a : PyDict) :
    ∃ id, (process_activity cfg pc st a).1 =
        assocSet a "activityId" (PyVal.s id) ∨
      (process_activity cfg pc st a).1 = matchResultDict a id := by
  unfold process_activity
  rcases hpb : processBody cfg pc st a with ⟨e | d, st', n⟩
  · exact ⟨"activity_" ++ pc.hexes n, by simp [Or.inl]⟩
  · obtain ⟨id, hid⟩ := processBody_ok_shape cfg pc st a d st' n hpb
    exact ⟨id, by simpa using hid⟩

/-- C8 (amended): the dict returned by `process_activity` is either the
input dict annotated with `activityId` — all input fields passing through
unchanged, as happens on the create path and on the fallback path — or the
fixed eight-field match dict, which drops unknown input fields. -/
theorem process_activity_output_shape (cfg : Config) (pc : PerCall)
    (st : ServiceState) (a : PyDict) :
    ∃ id, (process_activity cfg pc st a).1 =
        assocSet a "activityId" (PyVal.s id) ∨
      (process_activity cfg pc st a).1 = matchResultDict a id :=
  process_activity_output_cases cfg pc st a

/-- Every dict returned by `process_activity` carries an `activityId`. -/
theorem process_activity_has_id (cfg : Config) (pc : PerCall)
    (st : ServiceState) (a : PyDict) :
    (assocLookup (process_activity cfg pc st a).1 "activityId").isSome := by
  obtain ⟨id, h | h⟩ := process_activity_output_cases cfg pc st a <;> rw [h]
  · rw [assocLookup_assocSet_self]
    rfl
  · simp [matchResultDict, assocLookup]

/-- When the external embedding call fails, the `try` body of
`process_activity` stops with that failure, no `uuid4()` call consumed and
the state untouched. -/
theorem processBody_embed_error (cfg : Config) (pc : PerCall)
    (st : ServiceState) (a : PyDict) (nm lc ct : String) (e : PyErr)
    (hn : pyValLower (dictGetD a "name" (PyVal.s "")) = Except.ok nm)
    (hl : pyValLower (dictGetD a "location" (PyVal.s "")) = Except.ok lc)
    (hc : pyValLower (dictGetD a "category" (PyVal.s "")) = Except.ok ct)
    (he : cfg.embed (nm ++ " | " ++ lc ++ " | " ++ ct) = Except.error e) :
    processBody cfg pc st a = (Except.error e, st, 0) := by
  unfold processBody
  simp only [hn, hl, hc, he]

/-- A `try` body that raised turns into the fallback annotation, keeping
whatever state the body reached. -/
theorem process_activity_of_processBody_error (cfg : Config) (pc : PerCall)
    (st st' : ServiceState) (a : PyDict) (e : PyErr) (used : Nat)
    (h : processBody cfg pc st a = (Except.error e, st', used)) :
    process_activity cfg pc st a =
      (assocSet a "activityId" (PyVal.s ("activity_" ++ pc.hexes used)), st') := by
  unfold process_activity
  rw [h]

/-- Every dict produced by the span loop carries an `activityId`. -/
theorem processActivities_all_annotated (cfg : Config) (pcs : Nat → PerCall)
    (acts : List PyDict) : ∀ (n : Nat) (st : ServiceState),
    ((processActivities cfg pcs n st acts).1.all
      (fun d => (assocLookup d "activityId").isSome)) = true := by
  induction acts with
  | nil => intro n st; simp [processActivities]
  | cons a rest ih =>
    intro n st
    simp only [processActivities, List.all_cons, Bool.and_eq_true]
    exact ⟨process_activity_has_id cfg (pcs n) st a, ih (n + 1) _⟩

/-- Every span produced by the plan loop has all activities annotated. -/
theorem processSpans_all_annotated (cfg : Config) (pcs : Nat → PerCall)
    (sps : List Span) : ∀ (n : Nat) (st : ServiceState),
    ((processSpans cfg pcs n st sps).1.all (fun sp =>
      sp.activities.all (fun d => (assocLookup d "activityId").isSome))) = true := by
  induction sps with
  | nil => intro n st; simp [processSpans]
  | cons sp rest ih =>
    intro n st
    simp only [processSpans, List.all_cons, Bool.and_eq_true]
    exact ⟨processActivities_all_annotated cfg pcs sp.activities n st, ih _ _⟩

/-- C6: a failing embedding call degrades that activity alone — the
returned dict is the input annotated with a freshly drawn fallback id and
the service state (store, index, disk) is exactly as before, so nothing is
recorded — while `process_trip_plan` always returns every activity of every
span annotated with an `activityId`: the plan is never aborted. -/
theorem embed_failure_fallback_isolation (cfg : Config) (pc : PerCall)
    (st : ServiceState) (a : PyDict) (nm lc ct : String) (e : PyErr)
    (cfg2 : Config) (pcs : Nat → PerCall) (st2 : ServiceState)
    (plan : TripPlan)
    (hn : pyValLower (dictGetD a "name" (PyVal.s "")) = Except.ok nm)
    (hl : pyValLower (dictGetD a "location" (PyVal.s "")) = Except.ok lc)
    (hc : pyValLower (dictGetD a "category" (PyVal.s "")) = Except.ok ct)
    (he : cfg.embed (nm ++ " | " ++ lc ++ " | " ++ ct) = Except.error e) :
    process_activity cfg pc st a =
      (assocSet a "activityId" (PyVal.s ("activity_" ++ pc.hexes 0)), st) ∧
    planAllAnnotated (process_trip_plan cfg2 pcs st2 plan).1 = true := by
  constructor
  · exact process_activity_of_processBody_error cfg pc st st a e 0
      (processBody_embed_error cfg pc st a nm lc ct e hn hl hc he)
  · unfold planAllAnnotated process_trip_plan
    dsimp only
    exact processSpans_all_annotated cfg2 pcs plan.spans 0 st2

/-- Witness for C6: a concrete always-failing embedder on a one-record
store, and a concrete two-span plan processed with a working embedder. -/
theorem embed_failure_fallback_isolation_witness :
    process_activity cfgFail pcOk stOne actNew =
      (assocSet actNew "activityId"
        (PyVal.s ("activity_" ++ pcOk.hexes 0)), stOne) ∧
    planAllAnnotated
      (process_trip_plan cfgOne (fun _ => pcOk) stEmpty planTwoSpans).1 = true :=
  embed_failure_fallback_isolation cfgFail pcOk stOne actNew
    "new name" "old loc" "old cat" PyErr.embeddingError
    cfgOne (fun _ => pcOk) stEmpty planTwoSpans
    (by decide) (by decide) (by decide) (by decide)

/-- `_search_similar_activities` reads the configuration only through the
similarity threshold. -/
theorem searchSimilar_threshold_congr (cfg cfg' : Config)
    (hth : cfg.threshold = cfg'.threshold) (st : ServiceState)
    (q : List ℚ) : searchSimilar cfg st q = searchSimilar cfg' st q := by
  unfold searchSimilar
  rw [hth]

/-- C5 (amended): the string handed to the embedding model is
`"<name> | <location> | <category>"` built from the lower-cased raw fields
(the category slot present even when empty), not the Normalizer signature:
two embedding providers with the same threshold that agree on that one
string drive `process_activity` identically, whatever they answer
elsewhere — in particular at the Normalizer signature. -/
theorem process_activity_embed_input (cfg cfg' : Config) (pc : PerCall)
    (st : ServiceState) (a : PyDict) (nm lc ct : String)
    (hth : cfg.threshold = cfg'.threshold)
    (hn : pyValLower (dictGetD a "name" (PyVal.s "")) = Except.ok nm)
    (hl : pyValLower (dictGetD a "location" (PyVal.s "")) = Except.ok lc)
    (hc : pyValLower (dictGetD a "category" (PyVal.s "")) = Except.ok ct)
    (hagree : cfg.embed (nm ++ " | " ++ lc ++ " | " ++ ct) =
      cfg'.embed (nm ++ " | " ++ lc ++ " | " ++ ct)) :
    process_activity cfg pc st a = process_activity cfg' pc st a := by
  have hbody : processBody cfg pc st a = processBody cfg' pc st a := by
    unfold processBody
    simp only [hn, hl, hc, hagree,
      searchSimilar_threshold_congr cfg cfg' hth, hth]
  unfold process_activity
  rw [hbody]

/-- Witness for C5: `cfgRawSig` and `cfgOne` agree at the lower-cased raw
signature of `actCafe` but differ at its Normalizer signature; the runs
coincide. -/
theorem process_activity_embed_input_witness :
    process_activity cfgRawSig pcOk stEmpty actCafe =
      process_activity cfgOne pcOk stEmpty actCafe :=
  process_activity_embed_input cfgRawSig cfgOne pcOk stEmpty actCafe
    "a  b!" "x" "c" rfl (by decide) (by decide) (by decide) (by decide)

/-- Ids returned by the index-row translation all come from `index_to_id`. -/
theorem lookupRows_mem (ids : List String) :
    ∀ (l : List (Nat × ℚ)) (l' : List (String × ℚ)) (p : String × ℚ),
    lookupRows ids l = Except.ok l' → p ∈ l' → p.1 ∈ ids := by
  intro l
  induction l with
  | nil =>
    intro l' p h hp
    simp only [lookupRows, Except.ok.injEq] at h
    subst h
    simp at hp
  | cons q rest ih =>
    intro l' p h hp
    obtain ⟨i, s⟩ := q
    unfold lookupRows at h
    rcases hg : ids.get? i with _ | id <;> rw [hg] at h
    · simp at h
    · rcases hrec : lookupRows ids rest with e | l'' <;> rw [hrec] at h
      · simp at h
      · simp only [Except.ok.injEq] at h
        subst h
        rcases List.mem_cons.1 hp with hp1 | hp2
        · subst hp1
          exact List.get?_mem hg
        · exact ih l'' p hrec hp2

/-- Ids returned by `_search_similar_activities` all come from
`index_to_id`. -/
theorem searchSimilar_ok_mem (cfg : Config) (st : ServiceState)
    (q : List ℚ) (l : List (String × ℚ))
    (h : searchSimilar cfg st q = Except.ok (some l)) :
    ∀ p ∈ l, p.1 ∈ st.index_to_id := by
  unfold searchSimilar at h
  split at h
  · dsimp only at h
    split at h
    · rename_i l0 hlr
      simp only [Except.ok.injEq, Option.some.injEq] at h
      subst h
      exact fun p hp => lookupRows_mem st.index_to_id _ l0 p hlr hp
    · simp at h
  · simp at h

/-- Whatever path `process_activity` takes, some well-formed id is under
the `activityId` key of the returned dict. -/
theorem process_activity_id_exists (cfg : Config) (pc : PerCall)
    (st : ServiceState) (a : PyDict)
    (hids : ∀ id ∈ st.index_to_id, wfActivityId id = true)
    (hhex : ∀ k, wfActivityId ("activity_" ++ pc.hexes k) = true) :
    ∃ id, assocLookup (process_activity cfg pc st a).1 "activityId" =
        some (PyVal.s id) ∧ wfActivityId id = true := by
  unfold process_activity
  rcases hpb : processBody cfg pc st a with ⟨e | d, st', n⟩
  · refine ⟨"activity_" ++ pc.hexes n, ?_, hhex n⟩
    simp [assocLookup_assocSet_self]
  · dsimp only
    unfold processBody at hpb
    dsimp only at hpb
    split at hpb
    · simp at hpb
    split at hpb
    · simp at hpb
    split at hpb
    · simp at hpb
    split at hpb
    · simp at hpb
    split at hpb
    · simp at hpb
    split at hpb
    case _ =>
      rename_i osim similar_id similarity rest hosim
      split at hpb
      · simp at hpb
      split at hpb
      · split at hpb
        · rename_i st2 heq
          simp only [Prod.mk.injEq, Except.ok.injEq] at hpb
          obtain ⟨hd, _⟩ := hpb
          subst hd
          refine ⟨similar_id, by simp [matchResultDict, assocLookup], ?_⟩
          exact hids similar_id
            (searchSimilar_ok_mem cfg st _ _ hosim
              (similar_id, similarity) (by simp))
        · simp at hpb
      · have hd := createPath_ok_shape _ _ _ _ _ _ _ _ _ _ hpb
        subst hd
        refine ⟨"activity_" ++ pc.hexes 0, ?_, hhex 0⟩
        simp [assocLookup_assocSet_self]
    case _ =>
      have hd := createPath_ok_shape _ _ _ _ _ _ _ _ _ _ hpb
      subst hd
      refine ⟨"activity_" ++ pc.hexes 0, ?_, hhex 0⟩
      simp [assocLookup_assocSet_self]

/-- C9: `process_activity` is total at its interface: whatever the input
dict, the state, and the outcome of the embedding, search, store and save
steps, it returns a dict (never propagating an exception) whose
`activityId` value is a string of the form `activity_` followed by 16
lowercase hex characters — provided the stored `index_to_id` entries are
well-formed (they are produced by `_generate_activity_id`) and the
`uuid4().hex[:16]` draws are 16 lowercase hex characters. -/
theorem process_activity_total_wf_id (cfg : Config) (pc : PerCall)
    (st : ServiceState) (a : PyDict)
    (hids : ∀ id ∈ st.index_to_id, wfActivityId id = true)
    (hhex : ∀ k, wfActivityId ("activity_" ++ pc.hexes k) = true) :
    wfActivityIdOpt
      (assocLookup (process_activity cfg pc st a).1 "activityId") = true := by
  obtain ⟨id, hlook, hwf⟩ := process_activity_id_exists cfg pc st a hids hhex
  rw [hlook]
  simpa [wfActivityIdOpt] using hwf

/-- Witness for C9 at a concrete well-formed store. -/
theorem process_activity_total_wf_id_witness :
    wfActivityIdOpt
      (assocLookup (process_activity cfgOne pcOk stOne actNew).1
        "activityId") = true :=
  process_activity_total_wf_id cfgOne pcOk stOne actNew
    (by decide) (fun _ => rfl)

/-- Membership in an insertion step of the distance sort. -/
theorem mem_insertByDist (p x : Nat × ℚ) (l : List (Nat × ℚ)) :
    x ∈ insertByDist p l ↔ x = p ∨ x ∈ l := by
  induction l with
  | nil => simp [insertByDist]
  | cons q qs ih =>
    unfold insertByDist
    split
    · simp [List.mem_cons]
    · simp only [List.mem_cons, ih]
      tauto

/-- Inserting into a distance-sorted list keeps it sorted. -/
theorem pairwise_insertByDist (p : Nat × ℚ) (l : List (Nat × ℚ))
    (h : l.Pairwise (fun u v => u.2 ≤ v.2)) :
    (insertByDist p l).Pairwise (fun u v => u.2 ≤ v.2) := by
  induction l with
  | nil => simp [insertByDist]
  | cons q qs ih =>
    rcases List.pairwise_cons.1 h with ⟨hq, hqs⟩
    unfold insertByDist
    split
    · rename_i hle
      refine List.pairwise_cons.2 ⟨?_, h⟩
      intro x hx
      rcases List.mem_cons.1 hx with rfl | hx'
      · exact hle
      · exact le_trans hle (hq x hx')
    · rename_i hgt
      refine List.pairwise_cons.2 ⟨?_, ih hqs⟩
      intro x hx
      rcases (mem_insertByDist p x qs).1 hx with rfl | hx'
      · exact le_of_not_le hgt
      · exact hq x hx'

/-- The FAISS distance sort produces ascending distances. -/
theorem pairwise_sortByDist (l : List (Nat × ℚ)) :
    (sortByDist l).Pairwise (fun u v => u.2 ≤ v.2) := by
  induction l with
  | nil => simp [sortByDist]
  | cons p ps ih => exact pairwise_insertByDist p _ ih

/-- The index-row translation keeps the similarity column unchanged. -/
theorem lookupRows_ok_snd (ids : List String) :
    ∀ (l : List (Nat × ℚ)) (l' : List (String × ℚ)),
    lookupRows ids l = Except.ok l' →
    l'.map Prod.snd = l.map Prod.snd := by
  intro l
  induction l with
  | nil =>
    intro l' h
    simp only [lookupRows, Except.ok.injEq] at h
    subst h
    rfl
  | cons q rest ih =>
    intro l' h
    obtain ⟨i, s⟩ := q
    unfold lookupRows at h
    rcases hg : ids.get? i with _ | id <;> rw [hg] at h
    · simp at h
    · rcases hrec : lookupRows ids rest with e | l'' <;> rw [hrec] at h
      · simp at h
      · simp only [Except.ok.injEq] at h
        subst h
        simp [ih l'' hrec]

/-- When `_search_similar_activities` returns a non-empty candidate list,
every candidate passed the threshold and the head has the highest
similarity. -/
theorem searchSimilar_ok_facts (cfg : Config) (st : ServiceState)
    (q : List ℚ) (id0 : String) (s0 : ℚ) (rest : List (String × ℚ))
    (h : searchSimilar cfg st q = Except.ok (some ((id0, s0) :: rest))) :
    (((id0, s0) :: rest).all
      (fun p => decide (cfg.threshold ≤ p.2) && decide (p.2 ≤ s0))) = true := by
  unfold searchSimilar at h
  split at h
  · dsimp only at h
    split at h
    · rename_i l0 hlr
      simp only [Except.ok.injEq, Option.some.injEq] at h
      subst h
      have hsnd := lookupRows_ok_snd st.index_to_id _ _ hlr
      have hpairK : (((faissSearch st.index q 5).map
            (fun p => (p.1, 1 - p.2 / 2))).filter
            (fun p => cfg.threshold ≤ p.2)).Pairwise
            (fun u v => v.2 ≤ u.2) := by
        refine List.Pairwise.filter _ ?_
        refine (List.pairwise_map).2 ?_
        refine List.Pairwise.imp ?_
          ((pairwise_sortByDist _).sublist (List.take_sublist _ _))
        intro u v huv
        dsimp only
        linarith
      have hthrK : ∀ y ∈ ((faissSearch st.index q 5).map
            (fun p => (p.1, 1 - p.2 / 2))).filter
            (fun p => cfg.threshold ≤ p.2), cfg.threshold ≤ y.2 := by
        intro y hy
        simpa using (List.of_mem_filter hy)
      rw [List.all_eq_true]
      intro p hp
      simp only [Bool.and_eq_true, decide_eq_true_eq]
      constructor
      · have hmem : p.2 ∈ (((id0, s0) :: rest).map Prod.snd) :=
          List.mem_map_of_mem Prod.snd hp
        rw [hsnd] at hmem
        obtain ⟨y, hy, hy2⟩ := List.mem_map.1 hmem
        exact hy2 ▸ hthrK y hy
      · have hpairL : (((id0, s0) :: rest).map Prod.snd).Pairwise
            (fun u v => v ≤ u) := by
          rw [hsnd]
          exact (List.pairwise_map).2 hpairK
        simp only [List.map_cons, List.pairwise_cons] at hpairL
        rcases List.mem_cons.1 hp with rfl | hp'
        · exact le_refl _
        · exact hpairL.1 p.2 (List.mem_map_of_mem Prod.snd hp')
    · simp at h
  · simp at h

/-- C4 (amended): when `process_activity` reaches the match path (the
search returned candidates, the head id is stored, the index write
succeeds), every returned candidate has similarity at least the threshold
(default 0.85), the head — which the code matches on — has the highest
similarity (ties resolved by the search's earlier-row order, not by
lexicographically lowest id), the returned dict carries the matched
record's original id, and that record is overwritten in place with the
submission's lower-cased fields and the new embedding. -/
theorem match_selection_highest_similarity (cfg : Config) (pc : PerCall)
    (st : ServiceState) (a : PyDict) (nm lc ct : String) (emb : List ℚ)
    (id0 : String) (s0 : ℚ) (rest : List (String × ℚ))
    (r0 : ActivityRecord)
    (hn : pyValLower (dictGetD a "name" (PyVal.s "")) = Except.ok nm)
    (hl : pyValLower (dictGetD a "location" (PyVal.s "")) = Except.ok lc)
    (hc : pyValLower (dictGetD a "category" (PyVal.s "")) = Except.ok ct)
    (he : cfg.embed (nm ++ " | " ++ lc ++ " | " ++ ct) = Except.ok emb)
    (hs : searchSimilar cfg st emb = Except.ok (some ((id0, s0) :: rest)))
    (hk : assocLookup st.activities id0 = some r0)
    (hsave : pc.indexSaveOk = true) :
    (((id0, s0) :: rest).all
      (fun p => decide (cfg.threshold ≤ p.2) && decide (p.2 ≤ s0))) = true ∧
    (process_activity cfg pc st a).1 = matchResultDict a id0 ∧
    (process_activity cfg pc st a).2.activities =
      assocSet st.activities id0 ⟨id0, nm, lc, ct, emb⟩ := by
  have hall := searchSimilar_ok_facts cfg st emb id0 s0 rest hs
  have hth : cfg.threshold ≤ s0 := by
    have h1 := List.all_eq_true.1 hall (id0, s0) (List.mem_cons_self _ _)
    simp only [Bool.and_eq_true, decide_eq_true_eq] at h1
    exact h1.1
  refine ⟨hall, ?_⟩
  unfold process_activity processBody
  simp only [hn, hl, hc, he, hs, hk]
  rw [if_pos hth]
  unfold rebuild_index
  simp only [hsave, if_true]
  exact ⟨trivial, trivial⟩

/-- Witness for C4 at a concrete one-record match. -/
theorem match_selection_highest_similarity_witness :
    (([("activity_0000000000000000", (1 : ℚ))]).all
      (fun p => decide (cfgOne.threshold ≤ p.2) && decide (p.2 ≤ (1 : ℚ)))) = true ∧
    (process_activity cfgOne pcOk stOne actNew).1 =
      matchResultDict actNew "activity_0000000000000000" ∧
    (process_activity cfgOne pcOk stOne actNew).2.activities =
      assocSet stOne.activities "activity_0000000000000000"
        ⟨"activity_0000000000000000", "new name", "old loc", "old cat", [1]⟩ :=
  match_selection_highest_similarity cfgOne pcOk stOne actNew
    "new name" "old loc" "old cat" [1] "activity_0000000000000000" 1 [] recOld
    (by decide) (by decide) (by decide) (by decide) (by decide) (by decide) rfl

/-- `Char.ofNat` on a small code point keeps the code point. -/
theorem toNat_char_ofNat (m : Nat) (h : m < 128) : (Char.ofNat m).toNat = m := by
  have hv : m.isValidChar := Or.inl (by omega)
  simp [Char.ofNat, hv, Char.toNat, Char.ofNatAux, UInt32.ofNat', UInt32.toNat]

/-- The character order read on code points. -/
theorem char_le_toNat {a b : Char} (h : a ≤ b) : a.toNat ≤ b.toNat := by
  rw [Char.le_def, UInt32.le_def] at h
  exact BitVec.le_def.1 h

/-- Lower-casing keeps ASCII inside ASCII. -/
theorem pyLowerChar_toNat_lt (c : Char) (hc : c.toNat < 128) :
    (pyLowerChar c).toNat < 128 := by
  unfold pyLowerChar
  by_cases h : 'A' ≤ c ∧ c ≤ 'Z'
  · rw [if_pos h]
    have h2 := char_le_toNat h.2
    have : ('Z').toNat = 90 := by decide
    rw [toNat_char_ofNat _ (by omega)]
    omega
  · rw [if_neg h]
    by_cases hE : c = 'É'
    · subst hE
      exact absurd hc (by decide)
    · rw [if_neg hE]
      exact hc

/-- Lower-casing fixes ASCII characters that are not uppercase letters. -/
theorem pyLowerChar_fix (c : Char) (hc : c.toNat < 128)
    (h : ¬('A' ≤ c ∧ c ≤ 'Z')) : pyLowerChar c = c := by
  unfold pyLowerChar
  rw [if_neg h]
  by_cases hE : c = 'É'
  · subst hE
    exact absurd hc (by decide)
  · rw [if_neg hE]

/-- The output of lower-casing an ASCII character is never an uppercase
letter. -/
theorem pyLowerChar_not_upper (c : Char) (hc : c.toNat < 128) :
    ¬('A' ≤ pyLowerChar c ∧ pyLowerChar c ≤ 'Z') := by
  unfold pyLowerChar
  by_cases h : 'A' ≤ c ∧ c ≤ 'Z'
  · rw [if_pos h]
    rintro ⟨ha, hb⟩
    have h1 := char_le_toNat h.1
    have h2 := char_le_toNat h.2
    have hb' := char_le_toNat hb
    have hA : ('A').toNat = 65 := by decide
    have hZ : ('Z').toNat = 90 := by decide
    rw [toNat_char_ofNat _ (by omega)] at hb'
    omega
  · rw [if_neg h]
    by_cases hE : c = 'É'
    · subst hE
      exact absurd hc (by decide)
    · rw [if_neg hE]
      exact h

/-- Lower-casing is idempotent on ASCII. -/
theorem pyLowerChar_idem (c : Char) (hc : c.toNat < 128) :
    pyLowerChar (pyLowerChar c) = pyLowerChar c :=
  pyLowerChar_fix _ (pyLowerChar_toNat_lt c hc) (pyLowerChar_not_upper c hc)

/-- ASCII characters are NFKD-normal. -/
theorem nfkdChar_ascii (c : Char) (hc : c.toNat < 128) : nfkdChar c = [c] := by
  unfold nfkdChar
  rw [if_neg, if_neg, if_neg]
  · intro hE
    subst hE
    exact absurd hc (by decide)
  · intro hE
    subst hE
    exact absurd hc (by decide)
  · intro hE
    subst hE
    exact absurd hc (by decide)

/-- No ASCII character is a combining mark. -/
theorem isCombining_ascii (c : Char) (hc : c.toNat < 128) :
    isCombining c = false := by
  simp only [isCombining, decide_eq_false_iff_not, not_and]
  omega

/-- `' '.join` on a single word. -/
theorem intercalate_space_single (w : List Char) :
    List.intercalate [' '] [w] = w := by
  simp [List.intercalate]

/-- `' '.join` on two or more words. -/
theorem intercalate_space_cons (w w2 : List Char) (rest : List (List Char)) :
    List.intercalate [' '] (w :: w2 :: rest) =
      w ++ ' ' :: List.intercalate [' '] (w2 :: rest) := by
  simp [List.intercalate, List.intersperse_cons_cons]

/-- `' '.join` of words starting with a non-empty word is non-empty. -/
theorem intercalate_space_ne_nil (w : List Char) (rest : List (List Char))
    (hw : w ≠ []) : List.intercalate [' '] (w :: rest) ≠ [] := by
  cases rest with
  | nil => simpa [intercalate_space_single] using hw
  | cons w2 rest' =>
    rw [intercalate_space_cons]
    rcases w with _ | ⟨a, w'⟩
    · exact absurd rfl hw
    · simp

/-- Splitting `' '.join ws` on whitespace recovers `ws` when the words are
non-empty and whitespace-free. -/
theorem pySplitWs_intercalate (ws : List (List Char))
    (hne : ∀ w ∈ ws, w ≠ [])
    (hns : ∀ w ∈ ws, ∀ c ∈ w, ¬pyIsSpace c = true) :
    pySplitWs (List.intercalate [' '] ws) = ws := by
  induction ws with
  | nil => rfl
  | cons w rest ih =>
    rcases rest with _ | ⟨w2, rest'⟩
    · rw [intercalate_space_single]
      unfold pySplitWs
      rw [List.splitOnP_eq_single _ _ (hns w (List.mem_cons_self _ _))]
      simp [hne w (List.mem_cons_self _ _)]
    · rw [intercalate_space_cons]
      unfold pySplitWs
      rw [List.splitOnP_first _ _ (hns w (List.mem_cons_self _ _)) ' '
        (by decide)]
      rw [List.filter_cons, if_pos (by simpa using hne w (List.mem_cons_self _ _))]
      have ih' := ih (fun x hx => hne x (List.mem_cons_of_mem _ hx))
        (fun x hx => hns x (List.mem_cons_of_mem _ hx))
      unfold pySplitWs at ih'
      rw [ih']

/-- `dropWhile` fixes a list whose head does not satisfy the predicate. -/
theorem dropWhile_eq_self_of_head (p : Char → Bool) (m : List Char)
    (h : ∀ (hm : m ≠ []), ¬p (m.head hm) = true) : m.dropWhile p = m := by
  rcases m with _ | ⟨b, rt⟩
  · rfl
  · have hb : p b = false := by simpa using h (List.cons_ne_nil b rt)
    simp [List.dropWhile_cons, hb]

/-- `strip` fixes a list whose two ends are not whitespace. -/
theorem pyStrip_eq_self (l : List Char)
    (h1 : ∀ (hl : l ≠ []), ¬pyIsSpace (l.head hl) = true)
    (h2 : ∀ (hl : l ≠ []), ¬pyIsSpace (l.getLast hl) = true) :
    pyStrip l = l := by
  unfold pyStrip
  rw [dropWhile_eq_self_of_head _ _ h1]
  rw [dropWhile_eq_self_of_head _ _ ?hrev, List.reverse_reverse]
  case hrev =>
    intro hm
    rw [List.head_reverse]
    exact h2 _

/-- The head of `' '.join (w :: rest)` is the head of `w`. -/
theorem head?_intercalate_space (w : List Char) (rest : List (List Char))
    (hw : w ≠ []) :
    (List.intercalate [' '] (w :: rest)).head? = w.head? := by
  rcases rest with _ | ⟨w2, rest'⟩
  · rw [intercalate_space_single]
  · rw [intercalate_space_cons]
    rcases w with _ | ⟨a, t⟩
    · exact absurd rfl hw
    · rfl

/-- The last element of `' '.join ws` is the last element of the last
word, when all words are non-empty. -/
theorem getLast?_intercalate_space (w : List Char) (rest : List (List Char))
    (hne : ∀ x ∈ w :: rest, x ≠ []) :
    (List.intercalate [' '] (w :: rest)).getLast? =
      ((w :: rest).getLast (List.cons_ne_nil _ _)).getLast? := by
  induction rest generalizing w with
  | nil =>
    rw [intercalate_space_single]
    rfl
  | cons w2 rest' ih =>
    rw [intercalate_space_cons, List.getLast?_append]
    have ht : List.intercalate [' '] (w2 :: rest') ≠ [] :=
      intercalate_space_ne_nil w2 rest' (hne w2 (by simp))
    have hy := List.getLast?_eq_getLast (List.intercalate [' '] (w2 :: rest')) ht
    have hcons : (' ' :: List.intercalate [' '] (w2 :: rest')).getLast? =
        some ((List.intercalate [' '] (w2 :: rest')).getLast ht) := by
      rw [show (' ' :: List.intercalate [' '] (w2 :: rest')) =
        [' '] ++ List.intercalate [' '] (w2 :: rest') from rfl,
        List.getLast?_append, hy]
      rfl
    rw [hcons]
    have hih := ih w2 (fun x hx => hne x (List.mem_cons_of_mem _ hx))
    rw [hy] at hih
    rw [show ((w :: w2 :: rest').getLast (List.cons_ne_nil _ _)) =
      ((w2 :: rest').getLast (List.cons_ne_nil _ _)) from List.getLast_cons _]
    rw [← hih]
    rfl

/-- Characters of the pieces of `splitOnP p` do not satisfy `p` and come
from the original list. -/
theorem splitOnP_chars (p : Char → Bool) (l : List Char) :
    ∀ w ∈ l.splitOnP p, ∀ c ∈ w, ¬p c = true ∧ c ∈ l := by
  induction l with
  | nil =>
    intro w hw c hc
    rw [List.splitOnP_nil] at hw
    simp only [List.mem_singleton] at hw
    subst hw
    simp at hc
  | cons a t ih =>
    intro w hw c hc
    rw [List.splitOnP_cons] at hw
    by_cases hpa : p a
    · rw [if_pos hpa] at hw
      rcases List.mem_cons.1 hw with rfl | hw'
      · simp at hc
      · have hr := ih w hw' c hc
        exact ⟨hr.1, List.mem_cons_of_mem _ hr.2⟩
    · rw [if_neg hpa] at hw
      rcases hsp : t.splitOnP p with _ | ⟨w0, rest⟩
      · exact absurd hsp (List.splitOnP_ne_nil _ t)
      · rw [hsp] at hw
        simp only [List.modifyHead] at hw
        rcases List.mem_cons.1 hw with rfl | hw'
        · rcases List.mem_cons.1 hc with rfl | hc'
          · exact ⟨by simpa using hpa, List.mem_cons_self _ _⟩
          · have hr := ih w0 (by rw [hsp]; exact List.mem_cons_self _ _) c hc'
            exact ⟨hr.1, List.mem_cons_of_mem _ hr.2⟩
        · have hr := ih w (by rw [hsp]; exact List.mem_cons_of_mem _ hw') c hc
          exact ⟨hr.1, List.mem_cons_of_mem _ hr.2⟩

/-- The words produced by `text.split()` are non-empty, whitespace-free,
and made of characters of the input. -/
theorem pySplitWs_props (l : List Char) :
    ∀ w ∈ pySplitWs l, w ≠ [] ∧ ∀ c ∈ w, ¬pyIsSpace c = true ∧ c ∈ l := by
  intro w hw
  unfold pySplitWs at hw
  rw [List.mem_filter] at hw
  refine ⟨by simpa using hw.2, ?_⟩
  intro c hc
  exact splitOnP_chars (fun c => pyIsSpace c) l w hw.1 c hc

/-- A map that fixes every element of a list fixes the list. -/
theorem map_eq_self_of {α : Type} (f : α → α) (l : List α)
    (h : ∀ x ∈ l, f x = x) : l.map f = l := by
  induction l with
  | nil => rfl
  | cons a t ih =>
    rw [List.map_cons, h a (List.mem_cons_self _ _),
      ih (fun x hx => h x (List.mem_cons_of_mem _ hx))]

/-- A `flatMap` that sends every element of a list to its singleton fixes
the list. -/
theorem flatMap_eq_self_of {α : Type} (f : α → List α) (l : List α)
    (h : ∀ x ∈ l, f x = [x]) : l.flatMap f = l := by
  induction l with
  | nil => rfl
  | cons a t ih =>
    rw [List.flatMap_cons, h a (List.mem_cons_self _ _),
      ih (fun x hx => h x (List.mem_cons_of_mem _ hx))]
    rfl

/-- A character of `' '.join ws` is the separator or a word character. -/
theorem mem_intercalate_space (ws : List (List Char)) (c : Char) :
    c ∈ List.intercalate [' '] ws → c = ' ' ∨ ∃ w ∈ ws, c ∈ w := by
  induction ws with
  | nil => intro h; simp [List.intercalate] at h
  | cons w rest ih =>
    rcases rest with _ | ⟨w2, rest'⟩
    · rw [intercalate_space_single]
      intro h
      exact Or.inr ⟨w, by simp, h⟩
    · rw [intercalate_space_cons]
      intro h
      rcases List.mem_append.1 h with h1 | h2
      · exact Or.inr ⟨w, by simp, h1⟩
      · rcases List.mem_cons.1 h2 with rfl | h3
        · exact Or.inl rfl
        · rcases ih h3 with h4 | ⟨w', hw', hc⟩
          · exact Or.inl h4
          · exact Or.inr ⟨w', List.mem_cons_of_mem _ hw', hc⟩

/-- Characters surviving the lower/decompose/filter pipeline on ASCII
input are ASCII, fixed by lower-casing, and in the kept class. -/
theorem t4_chars (l : List Char) (h : ∀ a ∈ l, a.toNat < 128) :
    ∀ c ∈ ((((l.map pyLowerChar).flatMap nfkdChar).filter
      (fun c => !(isCombining c))).filter keepChar),
      c.toNat < 128 ∧ pyLowerChar c = c ∧ keepChar c = true := by
  intro c hc
  rw [List.mem_filter] at hc
  obtain ⟨hc3, hkeep⟩ := hc
  rw [List.mem_filter] at hc3
  obtain ⟨hc2, _⟩ := hc3
  rw [List.mem_flatMap] at hc2
  obtain ⟨b, hb, hcb⟩ := hc2
  rw [List.mem_map] at hb
  obtain ⟨a, ha, rfl⟩ := hb
  have hba : (pyLowerChar a).toNat < 128 := pyLowerChar_toNat_lt a (h a ha)
  rw [nfkdChar_ascii _ hba] at hcb
  rw [List.mem_singleton] at hcb
  subst hcb
  exact ⟨hba, pyLowerChar_fix _ hba (pyLowerChar_not_upper a (h a ha)), hkeep⟩

/-- `_normalize_text` is idempotent on ASCII input, at the character-list
level. -/
theorem normalizeTextL_idem_ascii (l : List Char)
    (h : ∀ c ∈ l, c.toNat < 128) :
    normalizeTextL (normalizeTextL l) = normalizeTextL l := by
  by_cases hl : l = []
  · subst hl
    rfl
  set T := (((l.map pyLowerChar).flatMap nfkdChar).filter
    (fun c => !(isCombining c))).filter keepChar with hT
  set W := pySplitWs T with hW
  set OUT := List.intercalate [' '] W with hOUTdef
  have hprops := pySplitWs_props T
  have hne : ∀ w ∈ W, w ≠ [] := fun w hw => (hprops w hw).1
  have hns : ∀ w ∈ W, ∀ c ∈ w, ¬pyIsSpace c = true :=
    fun w hw c hc => ((hprops w hw).2 c hc).1
  have hmemT : ∀ w ∈ W, ∀ c ∈ w, c ∈ T :=
    fun w hw c hc => ((hprops w hw).2 c hc).2
  have hTc := t4_chars l h
  have hstrip : pyStrip OUT = OUT := by
    apply pyStrip_eq_self
    · intro hOUTne
      rcases hWc : W with _ | ⟨w, rest⟩
      · rw [hOUTdef, hWc] at hOUTne
        exact absurd rfl hOUTne
      · have hwmem : w ∈ W := by rw [hWc]; exact List.mem_cons_self _ _
        have hhw : w ≠ [] := hne w hwmem
        have h1 : OUT.head? = w.head? := by
          rw [hOUTdef, hWc]
          exact head?_intercalate_space w rest hhw
        have h4 : OUT.head hOUTne = w.head hhw := by
          have := (List.head?_eq_head hOUTne).symm.trans
            (h1.trans (List.head?_eq_head hhw))
          exact Option.some.inj this
        rw [h4]
        exact hns w hwmem _ (List.head_mem hhw)
    · intro hOUTne
      rcases hWc : W with _ | ⟨w, rest⟩
      · rw [hOUTdef, hWc] at hOUTne
        exact absurd rfl hOUTne
      · have hlast : OUT.getLast? =
            ((w :: rest).getLast (List.cons_ne_nil _ _)).getLast? := by
          rw [hOUTdef, hWc]
          exact getLast?_intercalate_space w rest
            (by rw [← hWc]; exact hne)
        have hlwmem : (w :: rest).getLast (List.cons_ne_nil _ _) ∈ W := by
          rw [hWc]
          exact List.getLast_mem _
        have hlwne : (w :: rest).getLast (List.cons_ne_nil _ _) ≠ [] :=
          hne _ hlwmem
        have h4 : OUT.getLast hOUTne =
            ((w :: rest).getLast (List.cons_ne_nil _ _)).getLast hlwne := by
          have := (List.getLast?_eq_getLast _ hOUTne).symm.trans
            (hlast.trans (List.getLast?_eq_getLast _ hlwne))
          exact Option.some.inj this
        rw [h4]
        exact hns _ hlwmem _ (List.getLast_mem hlwne)
  have hnorm2 : normalizeTextL l = OUT := by
    have : normalizeTextL l = pyStrip OUT := by
      unfold normalizeTextL
      rw [if_neg hl]
    rw [this, hstrip]
  have hOUTchars : ∀ c ∈ OUT,
      c.toNat < 128 ∧ pyLowerChar c = c ∧ keepChar c = true := by
    intro c hc
    rw [hOUTdef] at hc
    rcases mem_intercalate_space W c hc with hsp | ⟨w, hw, hcw⟩
    · subst hsp
      exact ⟨by decide, by decide, by decide⟩
    · exact hTc c (hmemT w hw c hcw)
  rw [hnorm2]
  by_cases hOUTnil : OUT = []
  · rw [hOUTnil]
    rfl
  · have m1 : OUT.map pyLowerChar = OUT :=
      map_eq_self_of _ _ (fun c hc => (hOUTchars c hc).2.1)
    have m2 : OUT.flatMap nfkdChar = OUT :=
      flatMap_eq_self_of _ _ (fun c hc => nfkdChar_ascii c (hOUTchars c hc).1)
    have m3 : OUT.filter (fun c => !(isCombining c)) = OUT :=
      List.filter_eq_self.2 (fun c hc => by
        rw [isCombining_ascii c (hOUTchars c hc).1]
        rfl)
    have m4 : OUT.filter keepChar = OUT :=
      List.filter_eq_self.2 (fun c hc => (hOUTchars c hc).2.2)
    have m5 : pySplitWs OUT = W := by
      rw [hOUTdef]
      exact pySplitWs_intercalate W hne hns
    calc normalizeTextL OUT
        = pyStrip (List.intercalate [' ']
            (pySplitWs ((((OUT.map pyLowerChar).flatMap nfkdChar).filter
              (fun c => !(isCombining c))).filter keepChar))) := by
          unfold normalizeTextL
          rw [if_neg hOUTnil]
      _ = pyStrip (List.intercalate [' '] W) := by rw [m1, m2, m3, m4, m5]
      _ = OUT := by
          rw [← hOUTdef]
          exact hstrip

/-- C10 (amended): `_normalize_text` is idempotent on ASCII strings (over
full Unicode it is not, since compatibility decomposition after
lower-casing can introduce uppercase letters). -/
theorem normalize_text_idempotent_ascii (s : String)
    (h : allAscii s = true) :
    normalize_text (normalize_text s) = normalize_text s := by
  have hl : ∀ c ∈ s.data, c.toNat < 128 := by
    intro c hc
    simpa using List.all_eq_true.1 h c hc
  exact congrArg String.mk (normalizeTextL_idem_ascii s.data hl)

/-- Witness for C10 on a concrete ASCII string. -/
theorem normalize_text_idempotent_ascii_witness :
    allAscii "  Tokyo   SKYTREE!  " = true ∧
    normalize_text (normalize_text "  Tokyo   SKYTREE!  ") =
      normalize_text "  Tokyo   SKYTREE!  " :=
  ⟨by decide, normalize_text_idempotent_ascii _ (by decide)⟩
